import Mathlib

/-!
Verification of the level-scoped forward-AD gradient storage from
`torch/csrc/autograd/forward_grad.h` (classes `ForwardADLevel` and
`ForwardGrad`).

The source header defines the bodies of `ForwardGrad::clear`,
`ForwardGrad::set_value`, `ForwardGrad::reset`, `ForwardGrad::contains` and
`ForwardGrad::empty`, together with `ForwardADLevel::insert` and
`ForwardADLevel::erase`; these are embedded directly from the C++ code.
The registry operations `ForwardADLevel::get_next_idx`,
`ForwardADLevel::release_idx`, `ForwardADLevel::get_by_idx`,
`ForwardADLevel::try_get_by_idx`, the destructor `~ForwardADLevel`, and
`ForwardGrad::value` / `ForwardGrad::undef_grad` are only declared in the
header (defined in a translation unit that is not part of the sources); those
are modelled from the specification and carry a doc comment saying so.

The embedding is sequential: each C++ member function becomes a pure function
on a whole-system state.  Mutex acquisition is dropped; one call is one atomic
transition.  A `ForwardGrad` object is identified by a natural-number holder
id; its `content_` map (`std::unordered_map<uint64_t, at::Tensor>`) becomes an
association list; a level's `grads_` member set becomes a list of holder ids
without duplicates.  C++ exceptions (`TORCH_CHECK` failure inside
`get_by_idx`) become `Except Err`.
-/

/-- The opaque tensor payload: either the shared undefined sentinel or some
opaque defined value (its arithmetic is out of scope). -/
inductive Tensor where
  | undef : Tensor
  | val : Nat → Tensor
deriving DecidableEq, Repr

/-- Error taxonomy: `unknownScope` corresponds to the `TORCH_CHECK` failure in
`ForwardADLevel::get_by_idx` when the index is not active. -/
inductive Err where
  | unknownScope : Err
deriving DecidableEq, Repr

/-- Association-list lookup with decidable Nat keys, mirroring
`std::unordered_map::find`. -/
def lookupA {α : Type} (i : Nat) : List (Nat × α) → Option α
  | [] => none
  | (k, v) :: rest => if k = i then some v else lookupA i rest

/-- `std::unordered_map::insert`: inserts only if the key is absent; an
existing entry for the key is KEPT, not overwritten. -/
def insertNoReplace {α : Type} (i : Nat) (v : α) (l : List (Nat × α)) :
    List (Nat × α) :=
  match lookupA i l with
  | some _ => l
  | none => (i, v) :: l

/-- `std::unordered_map::erase(key)`: removes the entry for the key. -/
def eraseKey {α : Type} (i : Nat) (l : List (Nat × α)) : List (Nat × α) :=
  l.filter (fun p => p.1 != i)

/-- Keys of an association list. -/
def keysOf {α : Type} (l : List (Nat × α)) : List Nat :=
  l.map Prod.fst

/-- `std::unordered_set::insert` on a membership list. -/
def insertMem (h : Nat) (m : List Nat) : List Nat :=
  if h ∈ m then m else h :: m

/-- `std::unordered_set::erase` on a membership list. -/
def eraseMem (h : Nat) (m : List Nat) : List Nat :=
  m.filter (fun x => x != h)

/-- Rewrite the membership set stored under index `i`, leaving every other
level untouched (a level's `insert`/`erase` member functions act only on that
level's `grads_`). -/
def updateLevel (i : Nat) (f : List Nat → List Nat)
    (lv : List (Nat × List Nat)) : List (Nat × List Nat) :=
  lv.map (fun p => if p.1 = i then (p.1, f p.2) else p)

/-- Whole-system state: the registry's active levels (index ↦ member holder
ids, i.e. each level's `grads_` set) and every holder's `content_` map
(holder id ↦ association list level ↦ tensor). -/
structure SysState where
  levels : List (Nat × List Nat)
  holders : Nat → List (Nat × Tensor)

/-- The initial state: no active level, every holder's `content_` empty. -/
def initState : SysState :=
  { levels := [], holders := fun _ => [] }

/-- Point-update of the holder table at one holder id. -/
def updHolder (h : Nat) (c : List (Nat × Tensor))
    (f : Nat → List (Nat × Tensor)) : Nat → List (Nat × Tensor) :=
  fun h' => if h' = h then c else f h'

namespace ForwardADLevel

/-- Modelled from the spec: `get_by_idx` looks up an active scope and fails
with `UnknownScope` if the index is not active (its body lives in
forward_grad.cpp, which is not among the sources).  Returns the level's
membership set. -/
def get_by_idx (i : Nat) (s : SysState) : Except Err (List Nat) :=
  match lookupA i s.levels with
  | some m => Except.ok m
  | none => Except.error Err.unknownScope

/-- Modelled from the spec: `try_get_by_idx` performs the same lookup but
returns "absent" instead of failing (body in forward_grad.cpp, not among the
sources). -/
def try_get_by_idx (i : Nat) (s : SysState) : Option (List Nat) :=
  lookupA i s.levels

/-- Modelled from the spec: the index minted by `get_next_idx` (body in
forward_grad.cpp, not among the sources).  The spec requires a fresh index
never held by a live scope, and allows a released numeric index to be reused
by a later allocation; we mint the smallest inactive index, falling back to
one past the maximum (the fallback is never reached). -/
def freshIdx (used : List Nat) : Nat :=
  match (List.range (used.length + 1)).filter (fun n => !(used.contains n)) with
  | [] => (used.foldr max 0) + 1
  | n :: _ => n

/-- Modelled from the spec: `get_next_idx` allocates a new level with a fresh
index, registers it as active with an empty membership set, and returns the
index (body in forward_grad.cpp, not among the sources). -/
def get_next_idx (s : SysState) : Nat × SysState :=
  (freshIdx (keysOf s.levels),
   { s with levels := (freshIdx (keysOf s.levels), []) :: s.levels })

/-- Modelled from the spec: `release_idx` removes the level at `idx` from the
active table and destroys it; before destruction, the level's destructor
resets every member holder's entry for this index (the holder-local erase,
`reset(idx_, update_level=false)`) and drops it from membership.  Releasing an
index that is not active fails (body in forward_grad.cpp, not among the
sources). -/
def release_idx (i : Nat) (s : SysState) : Except Err SysState :=
  match lookupA i s.levels with
  | none => Except.error Err.unknownScope
  | some mem =>
      Except.ok
        { levels := s.levels.filter (fun p => p.1 != i),
          holders := fun h =>
            if h ∈ mem then eraseKey i (s.holders h) else s.holders h }

end ForwardADLevel

namespace ForwardGrad

/-- `ForwardGrad::set_value`: first `get_by_idx(level)->insert(this)` (which
throws `UnknownScope` before any mutation if the level is not active), then
`content_.insert({level, value})` — an `unordered_map::insert`, which keeps a
pre-existing entry for `level`. -/
def set_value (h : Nat) (v : Tensor) (level : Nat) (s : SysState) :
    Except Err SysState :=
  match lookupA level s.levels with
  | none => Except.error Err.unknownScope
  | some _ =>
      Except.ok
        { levels := updateLevel level (insertMem h) s.levels,
          holders := updHolder h (insertNoReplace level v (s.holders h))
            s.holders }

/-- `ForwardGrad::reset`: when `update_level` is true it first runs
`get_by_idx(level)->erase(this)` (throwing `UnknownScope` before the local
erase if the level is not active); then (or directly, when `update_level` is
false) it erases the holder-local `content_` entry. -/
def reset (h : Nat) (level : Nat) (update_level : Bool) (s : SysState) :
    Except Err SysState :=
  if update_level then
    match lookupA level s.levels with
    | none => Except.error Err.unknownScope
    | some _ =>
        Except.ok
          { levels := updateLevel level (eraseMem h) s.levels,
            holders := updHolder h (eraseKey level (s.holders h)) s.holders }
  else
    Except.ok
      { levels := s.levels,
        holders := updHolder h (eraseKey level (s.holders h)) s.holders }

/-- `ForwardGrad::clear`: snapshot the level indices of `content_`, then for
each use `try_get_by_idx` — tolerating already-released levels — and, when the
level is still alive, erase this holder from its membership set.  The
holder-local `content_` map is NOT cleared. -/
def clear (h : Nat) (s : SysState) : SysState :=
  { s with
    levels :=
      (keysOf (s.holders h)).foldl
        (fun lv i =>
          match lookupA i lv with
          | some _ => updateLevel i (eraseMem h) lv
          | none => lv)
        s.levels }

/-- `ForwardGrad::contains`: `content_.count(level) > 0`. -/
def contains (h : Nat) (level : Nat) (s : SysState) : Bool :=
  (lookupA level (s.holders h)).isSome

/-- `ForwardGrad::empty`: `content_.empty()`. -/
def empty (h : Nat) (s : SysState) : Bool :=
  (s.holders h).isEmpty

/-- Modelled from the spec: `undef_grad` is the process-wide immutable
"undefined gradient" sentinel (the singleton tensor lives in
forward_grad.cpp, not among the sources). -/
def undef_grad : Tensor :=
  Tensor.undef

/-- Modelled from the spec: `value(level)` returns the stored tensor for
`level`, or the shared `undef_grad` sentinel when absent (body in
forward_grad.cpp, not among the sources). -/
def value (h : Nat) (level : Nat) (s : SysState) : Tensor :=
  (lookupA level (s.holders h)).getD undef_grad

end ForwardGrad

/-- Is index `i` currently active in the registry? -/
def isActive (i : Nat) (s : SysState) : Bool :=
  (lookupA i s.levels).isSome

/-- Does the active level at `i` list holder `h` as a member? -/
def isMember (h : Nat) (i : Nat) (s : SysState) : Bool :=
  match lookupA i s.levels with
  | some m => decide (h ∈ m)
  | none => false

/-- One externally visible transition of the system: the external interface is
`get_next_idx`, `release_idx`, `set_value`, `reset` (user-facing form, with
`update_level = true`), and `clear`.  Failing calls leave the state unchanged
and hence induce no transition. -/
inductive Step : SysState → SysState → Prop where
  | next (s : SysState) : Step s (ForwardADLevel.get_next_idx s).2
  | rel (i : Nat) (s s' : SysState) :
      ForwardADLevel.release_idx i s = Except.ok s' → Step s s'
  | setv (h : Nat) (v : Tensor) (level : Nat) (s s' : SysState) :
      ForwardGrad.set_value h v level s = Except.ok s' → Step s s'
  | res (h level : Nat) (s s' : SysState) :
      ForwardGrad.reset h level true s = Except.ok s' → Step s s'
  | clr (h : Nat) (s : SysState) : Step s (ForwardGrad.clear h s)

/-- States reachable from the initial state by any sequence of external
calls, `clear` included. -/
inductive Reachable : SysState → Prop where
  | init : Reachable initState
  | step {s s' : SysState} : Reachable s → Step s s' → Reachable s'

/-- A transition other than `clear` (`clear` runs only while the owning
object is being destroyed, after which the holder is gone). -/
inductive StepNC : SysState → SysState → Prop where
  | next (s : SysState) : StepNC s (ForwardADLevel.get_next_idx s).2
  | rel (i : Nat) (s s' : SysState) :
      ForwardADLevel.release_idx i s = Except.ok s' → StepNC s s'
  | setv (h : Nat) (v : Tensor) (level : Nat) (s s' : SysState) :
      ForwardGrad.set_value h v level s = Except.ok s' → StepNC s s'
  | res (h level : Nat) (s s' : SysState) :
      ForwardGrad.reset h level true s = Except.ok s' → StepNC s s'

/-- States reachable without destroying any holder. -/
inductive ReachableNC : SysState → Prop where
  | init : ReachableNC initState
  | step {s s' : SysState} : ReachableNC s → StepNC s s' → ReachableNC s'

/-- A holder's `content_` has an entry for index `i` iff the active level at
`i` lists the holder in its membership set. -/
def LinkInv (s : SysState) : Prop :=
  ∀ h i, (lookupA i (s.holders h)).isSome = true ↔
    ∃ m, lookupA i s.levels = some m ∧ h ∈ m

/-- The indices currently held by live scopes. -/
def activeIdxs (s : SysState) : List Nat :=
  keysOf s.levels

/-! Concrete trace states used by the counterexamples and witnesses: a level
is allocated (index 0), holder 0 stores `val 1` there, and the state then
evolves through a second `set_value`, a `clear`, a `release_idx`, or a second
allocation. -/

/-- Level 0 freshly allocated from the initial state. -/
def sA : SysState :=
  (ForwardADLevel.get_next_idx initState).2

/-- Holder 0 has stored `val 1` at level 0. -/
def sB : SysState :=
  (ForwardGrad.set_value 0 (Tensor.val 1) 0 sA).toOption.getD sA

/-- A second `set_value` of `val 2` at level 0 by holder 0. -/
def sC1 : SysState :=
  (ForwardGrad.set_value 0 (Tensor.val 2) 0 sB).toOption.getD sB

/-- Holder 0 torn down via `clear` after storing a value at level 0. -/
def sC2 : SysState :=
  ForwardGrad.clear 0 sB

/-- Level 0 released while holder 0 was registered with it. -/
def sD : SysState :=
  (ForwardADLevel.release_idx 0 sB).toOption.getD sB

/-- A second level (index 1) allocated while level 0 holds holder 0. -/
def sE : SysState :=
  (ForwardADLevel.get_next_idx sB).2

/-- Holder 0, already holding `val 1` at level 0, calls `set_value (val 5) 0`
with both levels 0 and 1 active. -/
def sF : SysState :=
  (ForwardGrad.set_value 0 (Tensor.val 5) 0 sE).toOption.getD sE

/-- Holder 0 then calls `set_value (val 7) 1`. -/
def sG : SysState :=
  (ForwardGrad.set_value 0 (Tensor.val 7) 1 sF).toOption.getD sF


/-! ### Association-list and membership lemmas -/

theorem keysOf_cons {α : Type} (a : Nat) (v : α) (l : List (Nat × α)) :
    keysOf ((a, v) :: l) = a :: keysOf l := rfl

theorem lookupA_filter_ne {α : Type} (i k : Nat) (l : List (Nat × α))
    (hne : k ≠ i) :
    lookupA k (l.filter (fun p => p.1 != i)) = lookupA k l := by
  induction l with
  | nil => rfl
  | cons p rest ih =>
    obtain ⟨a, v⟩ := p
    rw [List.filter_cons]
    by_cases hai : a = i
    · subst hai
      have h1 : (((a, v) : Nat × α).1 != a) = false := by simp
      rw [h1]
      simp only [Bool.false_eq_true, if_false, ih]
      have h2 : a ≠ k := Ne.symm hne
      simp [lookupA, h2]
    · have h1 : (((a, v) : Nat × α).1 != i) = true := by simp [hai]
      rw [h1]
      simp only [if_true]
      simp [lookupA, ih]

theorem lookupA_filter_self {α : Type} (i : Nat) (l : List (Nat × α)) :
    lookupA i (l.filter (fun p => p.1 != i)) = none := by
  induction l with
  | nil => rfl
  | cons p rest ih =>
    obtain ⟨a, v⟩ := p
    rw [List.filter_cons]
    by_cases hai : a = i
    · subst hai
      have h1 : (((a, v) : Nat × α).1 != a) = false := by simp
      rw [h1]
      simp only [Bool.false_eq_true, if_false]
      exact ih
    · have h1 : (((a, v) : Nat × α).1 != i) = true := by simp [hai]
      rw [h1]
      simp only [if_true]
      simp [lookupA, hai, ih]

theorem lookupA_eraseKey_self {α : Type} (i : Nat) (l : List (Nat × α)) :
    lookupA i (eraseKey i l) = none :=
  lookupA_filter_self i l

theorem lookupA_eraseKey_ne {α : Type} (i k : Nat) (l : List (Nat × α))
    (hne : k ≠ i) : lookupA k (eraseKey i l) = lookupA k l :=
  lookupA_filter_ne i k l hne

theorem lookupA_insertNoReplace_self {α : Type} (i : Nat) (v : α)
    (l : List (Nat × α)) :
    lookupA i (insertNoReplace i v l) = some ((lookupA i l).getD v) := by
  unfold insertNoReplace
  cases hl : lookupA i l with
  | some w => simp [hl]
  | none => simp [lookupA, hl]

theorem lookupA_insertNoReplace_ne {α : Type} (i k : Nat) (v : α)
    (l : List (Nat × α)) (hne : k ≠ i) :
    lookupA k (insertNoReplace i v l) = lookupA k l := by
  unfold insertNoReplace
  cases hl : lookupA i l with
  | some w => rfl
  | none => simp [lookupA, Ne.symm hne]

theorem lookupA_updateLevel_self (i : Nat) (f : List Nat → List Nat)
    (lv : List (Nat × List Nat)) :
    lookupA i (updateLevel i f lv) = (lookupA i lv).map f := by
  induction lv with
  | nil => rfl
  | cons p rest ih =>
    obtain ⟨a, m⟩ := p
    simp only [updateLevel, List.map_cons] at *
    by_cases hai : a = i
    · subst hai
      rw [if_pos rfl]
      simp [lookupA]
    · rw [if_neg hai]
      simp [lookupA, hai, ih]

theorem lookupA_updateLevel_ne (i k : Nat) (f : List Nat → List Nat)
    (lv : List (Nat × List Nat)) (hne : k ≠ i) :
    lookupA k (updateLevel i f lv) = lookupA k lv := by
  induction lv with
  | nil => rfl
  | cons p rest ih =>
    obtain ⟨a, m⟩ := p
    simp only [updateLevel, List.map_cons] at *
    by_cases hai : a = i
    · subst hai
      rw [if_pos rfl]
      have h2 : a ≠ k := Ne.symm hne
      simp [lookupA, h2, ih]
    · rw [if_neg hai]
      by_cases hak : a = k
      · subst hak
        simp [lookupA]
      · simp [lookupA, hak, ih]

theorem keysOf_updateLevel (i : Nat) (f : List Nat → List Nat)
    (lv : List (Nat × List Nat)) :
    keysOf (updateLevel i f lv) = keysOf lv := by
  induction lv with
  | nil => rfl
  | cons p rest ih =>
    obtain ⟨a, m⟩ := p
    simp only [updateLevel, List.map_cons] at *
    by_cases hai : a = i
    · subst hai
      rw [if_pos rfl]
      rw [keysOf_cons, keysOf_cons, ih]
    · rw [if_neg hai]
      rw [keysOf_cons, keysOf_cons, ih]

theorem lookupA_eq_none_of_not_mem_keys {α : Type} (i : Nat)
    (l : List (Nat × α)) (hi : i ∉ keysOf l) : lookupA i l = none := by
  induction l with
  | nil => rfl
  | cons p rest ih =>
    obtain ⟨a, v⟩ := p
    rw [keysOf_cons] at hi
    have h1 : a ≠ i := fun h => hi (by rw [h]; exact List.mem_cons_self i _)
    have h2 : i ∉ keysOf rest := fun h => hi (List.mem_cons_of_mem a h)
    simp [lookupA, h1, ih h2]

theorem mem_keys_of_lookupA_isSome {α : Type} (i : Nat) (l : List (Nat × α))
    (hl : (lookupA i l).isSome = true) : i ∈ keysOf l := by
  by_contra hmem
  rw [lookupA_eq_none_of_not_mem_keys i l hmem] at hl
  simp at hl

theorem mem_insertMem (x h : Nat) (m : List Nat) :
    x ∈ insertMem h m ↔ x = h ∨ x ∈ m := by
  unfold insertMem
  by_cases hm : h ∈ m
  · simp [hm]
    intro hx; subst hx; exact hm
  · simp [hm]

theorem mem_eraseMem (x h : Nat) (m : List Nat) :
    x ∈ eraseMem h m ↔ x ∈ m ∧ x ≠ h := by
  unfold eraseMem
  simp [List.mem_filter]

theorem lookupA_none_of_forall_none {α : Type} (l : List (Nat × α))
    (hl : ∀ i, lookupA i l = none) : l = [] := by
  cases l with
  | nil => rfl
  | cons p rest =>
    obtain ⟨a, v⟩ := p
    have := hl a
    simp [lookupA] at this

theorem le_foldr_max (x : Nat) (l : List Nat) (hx : x ∈ l) :
    x ≤ l.foldr max 0 := by
  induction l with
  | nil => cases hx
  | cons a rest ih =>
    cases hx with
    | head => exact Nat.le_max_left _ _
    | tail _ hmem => exact Nat.le_trans (ih hmem) (Nat.le_max_right _ _)

theorem ForwardADLevel.freshIdx_not_mem (used : List Nat) :
    ForwardADLevel.freshIdx used ∉ used := by
  unfold ForwardADLevel.freshIdx
  cases hf : (List.range (used.length + 1)).filter
      (fun n => !(used.contains n)) with
  | nil =>
    show (used.foldr max 0) + 1 ∉ used
    intro hmem
    have := le_foldr_max _ used hmem
    omega
  | cons n rest =>
    show n ∉ used
    have hn : n ∈ (List.range (used.length + 1)).filter
        (fun n => !(used.contains n)) := by
      rw [hf]; exact List.mem_cons_self n rest
    rw [List.mem_filter] at hn
    simpa using hn.2

/-! ### The bidirectional link invariant -/

theorem LinkInv_init : LinkInv initState := by
  intro h i
  simp [initState, lookupA]

theorem LinkInv_get_next_idx (s : SysState) (hs : LinkInv s) :
    LinkInv (ForwardADLevel.get_next_idx s).2 := by
  intro h i
  unfold ForwardADLevel.get_next_idx
  simp only []
  have hfresh := ForwardADLevel.freshIdx_not_mem (keysOf s.levels)
  by_cases hia : i = ForwardADLevel.freshIdx (keysOf s.levels)
  · have hnone : lookupA i s.levels = none := by
      rw [hia]
      exact lookupA_eq_none_of_not_mem_keys _ s.levels hfresh
    constructor
    · intro hc
      have := (hs h i).mp hc
      obtain ⟨m, hm, _⟩ := this
      rw [hnone] at hm
      cases hm
    · intro hc
      obtain ⟨m, hm, hmem⟩ := hc
      simp [lookupA, hia] at hm
      subst hm
      cases hmem
  · constructor
    · intro hc
      obtain ⟨m, hm, hmem⟩ := (hs h i).mp hc
      refine ⟨m, ?_, hmem⟩
      simp [lookupA, Ne.symm hia, hm]
    · intro hc
      obtain ⟨m, hm, hmem⟩ := hc
      simp [lookupA, Ne.symm hia] at hm
      exact (hs h i).mpr ⟨m, hm, hmem⟩

theorem LinkInv_release_idx (i : Nat) (s s' : SysState)
    (hrel : ForwardADLevel.release_idx i s = Except.ok s') (hs : LinkInv s) :
    LinkInv s' := by
  unfold ForwardADLevel.release_idx at hrel
  cases hl : lookupA i s.levels with
  | none => rw [hl] at hrel; cases hrel
  | some mem =>
    rw [hl] at hrel
    injection hrel with hrel
    subst hrel
    intro h j
    simp only []
    by_cases hji : j = i
    · subst hji
      rw [lookupA_filter_self]
      constructor
      · intro hc
        by_cases hm : h ∈ mem
        · rw [if_pos hm, lookupA_eraseKey_self] at hc
          cases hc
        · rw [if_neg hm] at hc
          obtain ⟨m, hm', hmem⟩ := (hs h j).mp hc
          rw [hl] at hm'
          injection hm' with hm'
          subst hm'
          exact absurd hmem hm
      · intro hc
        obtain ⟨m, hm', _⟩ := hc
        cases hm'
    · rw [lookupA_filter_ne i j s.levels hji]
      by_cases hm : h ∈ mem
      · rw [if_pos hm, lookupA_eraseKey_ne i j _ hji]
        exact hs h j
      · rw [if_neg hm]
        exact hs h j

theorem LinkInv_set_value (h0 : Nat) (v : Tensor) (level : Nat)
    (s s' : SysState) (hset : ForwardGrad.set_value h0 v level s = Except.ok s')
    (hs : LinkInv s) : LinkInv s' := by
  unfold ForwardGrad.set_value at hset
  cases hl : lookupA level s.levels with
  | none => rw [hl] at hset; cases hset
  | some m0 =>
    rw [hl] at hset
    injection hset with hset
    subst hset
    intro h i
    simp only [updHolder]
    by_cases hil : i = level
    · subst hil
      rw [lookupA_updateLevel_self, hl]
      by_cases hh : h = h0
      · subst hh
        rw [if_pos rfl, lookupA_insertNoReplace_self]
        simp [mem_insertMem]
      · rw [if_neg hh]
        constructor
        · intro hc
          obtain ⟨m, hm', hmem⟩ := (hs h i).mp hc
          rw [hl] at hm'
          injection hm' with hm'
          subst hm'
          exact ⟨insertMem h0 m0, rfl, (mem_insertMem h h0 m0).mpr (Or.inr hmem)⟩
        · intro hc
          obtain ⟨m, hm', hmem⟩ := hc
          injection hm' with hm'
          subst hm'
          rcases (mem_insertMem h h0 m0).mp hmem with hcase | hcase
          · exact absurd hcase hh
          · exact (hs h i).mpr ⟨m0, hl, hcase⟩
    · rw [lookupA_updateLevel_ne level i _ s.levels hil]
      by_cases hh : h = h0
      · subst hh
        rw [if_pos rfl, lookupA_insertNoReplace_ne level i v _ hil]
        exact hs h i
      · rw [if_neg hh]
        exact hs h i

theorem LinkInv_reset (h0 level : Nat) (s s' : SysState)
    (hres : ForwardGrad.reset h0 level true s = Except.ok s')
    (hs : LinkInv s) : LinkInv s' := by
  unfold ForwardGrad.reset at hres
  rw [if_pos rfl] at hres
  cases hl : lookupA level s.levels with
  | none => rw [hl] at hres; cases hres
  | some m0 =>
    rw [hl] at hres
    injection hres with hres
    subst hres
    intro h i
    simp only [updHolder]
    by_cases hil : i = level
    · subst hil
      rw [lookupA_updateLevel_self, hl]
      by_cases hh : h = h0
      · subst hh
        rw [if_pos rfl, lookupA_eraseKey_self]
        constructor
        · intro hc; cases hc
        · intro hc
          obtain ⟨m, hm', hmem⟩ := hc
          injection hm' with hm'
          subst hm'
          exact absurd ((mem_eraseMem h h m0).mp hmem).2 (by simp)
      · rw [if_neg hh]
        constructor
        · intro hc
          obtain ⟨m, hm', hmem⟩ := (hs h i).mp hc
          rw [hl] at hm'
          injection hm' with hm'
          subst hm'
          exact ⟨eraseMem h0 m0, rfl, (mem_eraseMem h h0 m0).mpr ⟨hmem, hh⟩⟩
        · intro hc
          obtain ⟨m, hm', hmem⟩ := hc
          injection hm' with hm'
          subst hm'
          exact (hs h i).mpr ⟨m0, hl, ((mem_eraseMem h h0 m0).mp hmem).1⟩
    · rw [lookupA_updateLevel_ne level i _ s.levels hil]
      by_cases hh : h = h0
      · subst hh
        rw [if_pos rfl, lookupA_eraseKey_ne level i _ hil]
        exact hs h i
      · rw [if_neg hh]
        exact hs h i

theorem LinkInv_stepNC {s s' : SysState} (hstep : StepNC s s')
    (hs : LinkInv s) : LinkInv s' := by
  cases hstep with
  | next s => exact LinkInv_get_next_idx s hs
  | rel i s s' hrel => exact LinkInv_release_idx i s s' hrel hs
  | setv h v level s s' hset => exact LinkInv_set_value h v level s s' hset hs
  | res h level s s' hres => exact LinkInv_reset h level s s' hres hs

theorem LinkInv_reachableNC {s : SysState} (hs : ReachableNC s) : LinkInv s := by
  induction hs with
  | init => exact LinkInv_init
  | step _ hstep ih => exact LinkInv_stepNC hstep ih

/-! ### Success-shape lemmas for the fallible operations -/

theorem set_value_ok_of_active (h : Nat) (v : Tensor) (level : Nat)
    (s : SysState) (m : List Nat) (hl : lookupA level s.levels = some m) :
    ForwardGrad.set_value h v level s = Except.ok
      { levels := updateLevel level (insertMem h) s.levels,
        holders := updHolder h (insertNoReplace level v (s.holders h))
          s.holders } := by
  unfold ForwardGrad.set_value
  rw [hl]

theorem release_idx_ok_of_active (i : Nat) (s : SysState) (m : List Nat)
    (hl : lookupA i s.levels = some m) :
    ForwardADLevel.release_idx i s = Except.ok
      { levels := s.levels.filter (fun p => p.1 != i),
        holders := fun h =>
          if h ∈ m then eraseKey i (s.holders h) else s.holders h } := by
  unfold ForwardADLevel.release_idx
  rw [hl]

theorem reset_ok_of_active (h level : Nat) (s : SysState) (m : List Nat)
    (hl : lookupA level s.levels = some m) :
    ForwardGrad.reset h level true s = Except.ok
      { levels := updateLevel level (eraseMem h) s.levels,
        holders := updHolder h (eraseKey level (s.holders h)) s.holders } := by
  unfold ForwardGrad.reset
  rw [if_pos rfl, hl]

/-- Conversion between the Bool membership observer and its logical form. -/
theorem isMember_eq_true_iff (h i : Nat) (s : SysState) :
    isMember h i s = true ↔ ∃ m, lookupA i s.levels = some m ∧ h ∈ m := by
  unfold isMember
  cases hl : lookupA i s.levels with
  | some m => simp [hl]
  | none => simp [hl]

/-! ### Uniqueness of active indices -/

theorem keysOf_clear_foldl (ids : List Nat) (h : Nat)
    (lv : List (Nat × List Nat)) :
    keysOf (ids.foldl
      (fun lv2 i =>
        match lookupA i lv2 with
        | some _ => updateLevel i (eraseMem h) lv2
        | none => lv2)
      lv) = keysOf lv := by
  induction ids generalizing lv with
  | nil => rfl
  | cons a rest ih =>
    rw [List.foldl_cons]
    cases hl : lookupA a lv with
    | some m => rw [ih, keysOf_updateLevel]
    | none => rw [ih]

theorem activeIdxs_nodup_step {s s' : SysState} (hstep : Step s s')
    (hs : (activeIdxs s).Nodup) : (activeIdxs s').Nodup := by
  cases hstep with
  | next s =>
    unfold ForwardADLevel.get_next_idx activeIdxs
    rw [keysOf_cons]
    exact List.nodup_cons.mpr ⟨ForwardADLevel.freshIdx_not_mem _, hs⟩
  | rel i s s' hrel =>
    unfold ForwardADLevel.release_idx at hrel
    cases hl : lookupA i s.levels with
    | none => rw [hl] at hrel; cases hrel
    | some mem =>
      rw [hl] at hrel
      injection hrel with hrel
      subst hrel
      unfold activeIdxs keysOf at *
      exact hs.sublist ((List.filter_sublist _).map Prod.fst)
  | setv h v level s s' hset =>
    unfold ForwardGrad.set_value at hset
    cases hl : lookupA level s.levels with
    | none => rw [hl] at hset; cases hset
    | some m0 =>
      rw [hl] at hset
      injection hset with hset
      subst hset
      unfold activeIdxs
      rw [keysOf_updateLevel]
      exact hs
  | res h level s s' hres =>
    unfold ForwardGrad.reset at hres
    rw [if_pos rfl] at hres
    cases hl : lookupA level s.levels with
    | none => rw [hl] at hres; cases hres
    | some m0 =>
      rw [hl] at hres
      injection hres with hres
      subst hres
      unfold activeIdxs
      rw [keysOf_updateLevel]
      exact hs
  | clr h s =>
    unfold ForwardGrad.clear activeIdxs
    rw [keysOf_clear_foldl]
    exact hs

theorem activeIdxs_nodup_reachable {s : SysState} (hs : Reachable s) :
    (activeIdxs s).Nodup := by
  induction hs with
  | init => exact List.nodup_nil
  | step _ hstep ih => exact activeIdxs_nodup_step hstep ih

/-! ### Reachability of the concrete trace states -/

theorem reachableNC_sA : ReachableNC sA :=
  ReachableNC.step ReachableNC.init (StepNC.next initState)

theorem reachableNC_sB : ReachableNC sB :=
  ReachableNC.step reachableNC_sA (StepNC.setv 0 (Tensor.val 1) 0 sA sB rfl)

theorem reachableNC_sD : ReachableNC sD :=
  ReachableNC.step reachableNC_sB (StepNC.rel 0 sB sD rfl)

theorem reachable_sB : Reachable sB :=
  Reachable.step (Reachable.step Reachable.init (Step.next initState))
    (Step.setv 0 (Tensor.val 1) 0 sA sB rfl)

theorem reachable_sC2 : Reachable sC2 :=
  Reachable.step reachable_sB (Step.clr 0 sB)

/-! ### The claims -/

/-- C1, counterexample: with level 0 active, holder 0 calls
`set_value(val 1, 0)` and then `set_value(val 2, 0)`; both calls succeed, yet
`value(0)` afterwards returns `val 1`, not the most recently set `val 2` —
`content_.insert({level, value})` is an `unordered_map::insert`, which keeps a
pre-existing entry. -/
theorem set_value_overwrite_counterexample :
    ForwardGrad.set_value 0 (Tensor.val 1) 0 sA = Except.ok sB ∧
    ForwardGrad.set_value 0 (Tensor.val 2) 0 sB = Except.ok sC1 ∧
    ForwardGrad.value 0 0 sC1 = Tensor.val 1 ∧
    Tensor.val 1 ≠ Tensor.val 2 :=
  ⟨rfl, rfl, rfl, by decide⟩

/-- C1, amended: a successful `set_value(v, level)` registers the holder and
guarantees an entry for `level`, but it does not overwrite: afterwards
`value(level)` returns the previously stored value when one existed, and `v`
only when no entry was present. -/
theorem set_value_keeps_first (h : Nat) (v : Tensor) (level : Nat)
    (s s' : SysState)
    (hset : ForwardGrad.set_value h v level s = Except.ok s') :
    ForwardGrad.contains h level s' = true ∧
    ForwardGrad.value h level s' =
      (if ForwardGrad.contains h level s = true
       then ForwardGrad.value h level s else v) := by
  unfold ForwardGrad.set_value at hset
  cases hl : lookupA level s.levels with
  | none => rw [hl] at hset; cases hset
  | some m0 =>
    rw [hl] at hset
    injection hset with hset
    subst hset
    unfold ForwardGrad.contains ForwardGrad.value
    show (lookupA level
          (updHolder h (insertNoReplace level v (s.holders h)) s.holders h)).isSome
            = true ∧
        (lookupA level
          (updHolder h (insertNoReplace level v (s.holders h)) s.holders
            h)).getD ForwardGrad.undef_grad =
      if (lookupA level (s.holders h)).isSome = true
      then (lookupA level (s.holders h)).getD ForwardGrad.undef_grad else v
    rw [show updHolder h (insertNoReplace level v (s.holders h)) s.holders h
        = insertNoReplace level v (s.holders h) from if_pos rfl]
    rw [lookupA_insertNoReplace_self]
    cases hcl : lookupA level (s.holders h) with
    | some w => simp [hcl]
    | none => simp [hcl]

/-- C1, amended, witness: at the concrete trace, the second `set_value` keeps
the first value. -/
theorem set_value_keeps_first_witness :
    ForwardGrad.contains 0 0 sC1 = true ∧
    ForwardGrad.value 0 0 sC1 =
      (if ForwardGrad.contains 0 0 sB = true
       then ForwardGrad.value 0 0 sB else Tensor.val 2) :=
  set_value_keeps_first 0 (Tensor.val 2) 0 sB sC1 rfl

/-- C2, counterexample: the bidirectional link invariant does not hold in
every state reachable by next_index/release/set/reset/clear calls: after
`set_value` then `clear`, the holder still has its `content_` entry for level
0 (clear never erases `content_`) while level 0 no longer lists it as a
member. -/
theorem link_invariant_counterexample :
    ¬ (∀ s, Reachable s → ∀ h i,
        ForwardGrad.contains h i s = true ↔ isMember h i s = true) := by
  intro hclaim
  have h1 : isMember 0 0 sC2 = true :=
    (hclaim sC2 reachable_sC2 0 0).mp rfl
  have h2 : isMember 0 0 sC2 = false := rfl
  rw [h1] at h2
  cases h2

/-- C2, amended: in every state reachable by next_index, release, set and
reset calls — `clear` excluded, since a cleared holder is in destruction and
keeps its `content_` entries while dropping its registrations — a holder has
an entry for index `i` iff the active level at `i` lists it as a member. -/
theorem link_invariant_reachableNC (s : SysState) (hs : ReachableNC s)
    (h i : Nat) :
    ForwardGrad.contains h i s = true ↔ isMember h i s = true := by
  rw [isMember_eq_true_iff]
  exact LinkInv_reachableNC hs h i

/-- C2, amended, witness: the invariant at the concrete reachable state
`sB`. -/
theorem link_invariant_reachableNC_witness :
    ForwardGrad.contains 0 0 sB = true ↔ isMember 0 0 sB = true :=
  link_invariant_reachableNC sB reachableNC_sB 0 0

/-- C3: `clear` never faults (it is a total function: the lookup uses
`try_get_by_idx`, tolerating already-released levels), and when every level
the holder was registered with has been released, the holder has no entries
left — `release_idx` already erased them — so `clear` leaves the state
unchanged and the holder empty. -/
theorem clear_after_releases (s : SysState) (h : Nat) (hs : ReachableNC s)
    (hrel : ∀ i, ForwardGrad.contains h i s = true → isActive i s = false) :
    ForwardGrad.clear h s = s ∧
    ForwardGrad.empty h (ForwardGrad.clear h s) = true := by
  have hinv := LinkInv_reachableNC hs
  have hnone : ∀ i, lookupA i (s.holders h) = none := by
    intro i
    cases hl : lookupA i (s.holders h) with
    | none => rfl
    | some w =>
      exfalso
      have hc : (lookupA i (s.holders h)).isSome = true := by rw [hl]; rfl
      have hact : isActive i s = false := hrel i hc
      obtain ⟨m, hm, _⟩ := (hinv h i).mp hc
      unfold isActive at hact
      rw [hm] at hact
      cases hact
  have hcont : s.holders h = [] := lookupA_none_of_forall_none _ hnone
  constructor
  · unfold ForwardGrad.clear
    rw [hcont]
    rfl
  · unfold ForwardGrad.empty ForwardGrad.clear
    simp [hcont]

/-- C3, witness: after level 0 (the only level holder 0 was registered with)
is released, `clear` is a no-op and the holder is empty. -/
theorem clear_after_releases_witness :
    ForwardGrad.clear 0 sD = sD ∧
    ForwardGrad.empty 0 (ForwardGrad.clear 0 sD) = true :=
  clear_after_releases sD 0 reachableNC_sD (fun i hc => by
    rw [show ForwardGrad.contains 0 i sD = false from rfl] at hc
    cases hc)

/-- Core of the C4 scenario, stated for any state whose level `a` is active
with an empty membership set (which is how `get_next_idx` creates it). -/
theorem set_release_core (s0 : SysState) (a h : Nat) (v : Tensor)
    (hl1 : lookupA a s0.levels = some []) :
    ∃ s2 s3,
      ForwardGrad.set_value h v a s0 = Except.ok s2 ∧
      ForwardGrad.contains h a s2 = true ∧
      ForwardADLevel.release_idx a s2 = Except.ok s3 ∧
      ForwardGrad.contains h a s3 = false := by
  refine
    ⟨{ levels := updateLevel a (insertMem h) s0.levels,
       holders := updHolder h (insertNoReplace a v (s0.holders h)) s0.holders },
     { levels := (updateLevel a (insertMem h) s0.levels).filter
         (fun p => p.1 != a),
       holders := fun h' =>
         if h' ∈ insertMem h []
         then eraseKey a
           (updHolder h (insertNoReplace a v (s0.holders h)) s0.holders h')
         else updHolder h (insertNoReplace a v (s0.holders h)) s0.holders h' },
     set_value_ok_of_active h v a s0 [] hl1, ?_, ?_, ?_⟩
  · show (lookupA a
        (updHolder h (insertNoReplace a v (s0.holders h)) s0.holders h)).isSome
          = true
    rw [show updHolder h (insertNoReplace a v (s0.holders h)) s0.holders h
        = insertNoReplace a v (s0.holders h) from if_pos rfl]
    rw [lookupA_insertNoReplace_self]
    rfl
  · refine release_idx_ok_of_active a _ (insertMem h []) ?_
    show lookupA a (updateLevel a (insertMem h) s0.levels) = some (insertMem h [])
    rw [lookupA_updateLevel_self, hl1]
    rfl
  · show (lookupA a
        (if h ∈ insertMem h []
         then eraseKey a
            (updHolder h (insertNoReplace a v (s0.holders h)) s0.holders h)
         else updHolder h (insertNoReplace a v (s0.holders h)) s0.holders
            h)).isSome = false
    rw [if_pos ((mem_insertMem h h []).mpr (Or.inl rfl))]
    rw [lookupA_eraseKey_self]
    rfl

/-- C4: allocate a fresh level A with `get_next_idx`; for any holder `h` and
value `v`, `set_value(v, A)` succeeds, after which `contains(A)` is true;
`release_idx(A)` then succeeds, after which `contains(A)` is false. -/
theorem set_then_release_scenario (s : SysState) (h : Nat) (v : Tensor) :
    ∃ s2 s3,
      ForwardGrad.set_value h v (ForwardADLevel.get_next_idx s).1
          (ForwardADLevel.get_next_idx s).2 = Except.ok s2 ∧
      ForwardGrad.contains h (ForwardADLevel.get_next_idx s).1 s2 = true ∧
      ForwardADLevel.release_idx (ForwardADLevel.get_next_idx s).1 s2 =
          Except.ok s3 ∧
      ForwardGrad.contains h (ForwardADLevel.get_next_idx s).1 s3 = false := by
  refine set_release_core (ForwardADLevel.get_next_idx s).2
      (ForwardADLevel.get_next_idx s).1 h v ?_
  show lookupA (ForwardADLevel.freshIdx (keysOf s.levels))
      ((ForwardADLevel.freshIdx (keysOf s.levels), ([] : List Nat))
        :: s.levels) = some []
  simp [lookupA]

/-- C5: if holder `h` has an entry at index `i` (stored via `set_value`
against the old occupant), `i` is released, and the next allocation returns
the same numeric index, then the old entry is not visible under the new
occupant: `contains(i)` is false immediately after the allocation. -/
theorem recycled_index_clean (s s1 : SysState) (h i : Nat)
    (hs : ReachableNC s)
    (hset : ForwardGrad.contains h i s = true)
    (hrel : ForwardADLevel.release_idx i s = Except.ok s1)
    (hsame : (ForwardADLevel.get_next_idx s1).1 = i) :
    ForwardGrad.contains h i (ForwardADLevel.get_next_idx s1).2 = false := by
  have hinv := LinkInv_reachableNC hs
  unfold ForwardADLevel.release_idx at hrel
  cases hl : lookupA i s.levels with
  | none => rw [hl] at hrel; cases hrel
  | some mem =>
    rw [hl] at hrel
    injection hrel with hrel
    subst hrel
    have hmem : h ∈ mem := by
      obtain ⟨m, hm, hmm⟩ := (hinv h i).mp hset
      rw [hl] at hm
      injection hm with hm
      subst hm
      exact hmm
    show (lookupA i
        (if h ∈ mem then eraseKey i (s.holders h) else s.holders h)).isSome
          = false
    rw [if_pos hmem, lookupA_eraseKey_self]
    rfl

/-- C5, witness: level 0 holding holder 0's entry is released from `sB`;
the next allocation returns index 0 again, and the holder's old entry is not
visible there. -/
theorem recycled_index_clean_witness :
    ForwardGrad.contains 0 0 (ForwardADLevel.get_next_idx sD).2 = false :=
  recycled_index_clean sB sD 0 0 reachableNC_sB rfl rfl rfl

/-- C6: in every reachable state (`clear` included), the set of indices
returned by `get_next_idx` and not yet released — the keys of the active
level table — contains no duplicates, and the index the next `get_next_idx`
call would return is not currently held by any live scope. -/
theorem active_indices_unique (s : SysState) (hs : Reachable s) :
    (activeIdxs s).Nodup ∧
    (ForwardADLevel.get_next_idx s).1 ∉ activeIdxs s :=
  ⟨activeIdxs_nodup_reachable hs, ForwardADLevel.freshIdx_not_mem _⟩

/-- C6, witness: uniqueness at the concrete reachable state `sB`. -/
theorem active_indices_unique_witness :
    (activeIdxs sB).Nodup ∧
    (ForwardADLevel.get_next_idx sB).1 ∉ activeIdxs sB :=
  active_indices_unique sB reachable_sB

/-- C7: `value(i)` on a holder with no entry for `i` returns the shared
sentinel `undef_grad` — always the same fixed constant of the model, which no
operation ever changes (in the pure embedding the sentinel cannot be
mutated). -/
theorem value_absent_is_sentinel (s : SysState) (h i : Nat)
    (hc : ForwardGrad.contains h i s = false) :
    ForwardGrad.value h i s = ForwardGrad.undef_grad := by
  unfold ForwardGrad.contains at hc
  unfold ForwardGrad.value
  cases hl : lookupA i (s.holders h) with
  | none => rfl
  | some w => rw [hl] at hc; cases hc

/-- C7, witness: holder 0 has no entry at index 5 in `sA`, so `value` returns
the sentinel. -/
theorem value_absent_is_sentinel_witness :
    ForwardGrad.value 0 5 sA = ForwardGrad.undef_grad :=
  value_absent_is_sentinel sA 0 5 rfl

/-- C9: `set_value(v, level)` with `level` not active fails with
`UnknownScope`; since the embedded `get_by_idx` lookup precedes both the
membership insert and the `content_` insert, the error carries no successor
state — the holder is unchanged, nothing was registered. -/
theorem set_value_inactive_error (s : SysState) (h : Nat) (v : Tensor)
    (level : Nat) (hl : isActive level s = false) :
    ForwardGrad.set_value h v level s = Except.error Err.unknownScope := by
  unfold isActive at hl
  unfold ForwardGrad.set_value
  cases hll : lookupA level s.levels with
  | none => rfl
  | some m => rw [hll] at hl; cases hl

/-- C9, witness: index 5 is not active in `sA`, so `set_value` fails. -/
theorem set_value_inactive_error_witness :
    ForwardGrad.set_value 0 (Tensor.val 3) 5 sA =
      Except.error Err.unknownScope :=
  set_value_inactive_error sA 0 (Tensor.val 3) 5 rfl

/-- C10: with `level` not active, `reset(level, true)` fails with
`UnknownScope` before the local erase is reached (no successor state, so a
still-present local entry survives), while `reset(level, false)` succeeds
without consulting the registry: the level table is untouched and only the
holder's own entry for `level` is erased. -/
theorem reset_inactive_behavior (s : SysState) (h level : Nat)
    (hl : isActive level s = false) :
    ForwardGrad.reset h level true s = Except.error Err.unknownScope ∧
    ForwardGrad.reset h level false s = Except.ok
      { levels := s.levels,
        holders := updHolder h (eraseKey level (s.holders h)) s.holders } := by
  constructor
  · unfold isActive at hl
    unfold ForwardGrad.reset
    rw [if_pos rfl]
    cases hll : lookupA level s.levels with
    | none => rfl
    | some m => rw [hll] at hl; cases hl
  · rfl

/-- C10, witness: index 5 is not active in `sB`. -/
theorem reset_inactive_behavior_witness :
    ForwardGrad.reset 0 5 true sB = Except.error Err.unknownScope ∧
    ForwardGrad.reset 0 5 false sB = Except.ok
      { levels := sB.levels,
        holders := updHolder 0 (eraseKey 5 (sB.holders 0)) sB.holders } :=
  reset_inactive_behavior sB 0 5 rfl

/-- C8, counterexample: levels 0 and 1 are both active and the holder already
has an entry at level 0 (value `val 1`); after `set_value(val 5, 0)` and
`set_value(val 7, 1)`, `value(0)` returns the old `val 1`, not `val 5`,
because `set_value` does not overwrite — so the claim fails for a holder with
a prior entry. -/
theorem two_scope_claim_counterexample :
    isActive 0 sE = true ∧ isActive 1 sE = true ∧
    ForwardGrad.set_value 0 (Tensor.val 5) 0 sE = Except.ok sF ∧
    ForwardGrad.set_value 0 (Tensor.val 7) 1 sF = Except.ok sG ∧
    ForwardGrad.value 0 0 sG = Tensor.val 1 ∧
    Tensor.val 1 ≠ Tensor.val 5 :=
  ⟨rfl, rfl, rfl, rfl, rfl, by decide⟩

/-- C8, amended: for two distinct simultaneously active levels `A`, `B` and a
holder with no prior entries for `A` or `B` (entries at other levels are
allowed), `set_value(v1, A)` and `set_value(v2, B)` succeed, `value(A)` is
`v1` and `value(B)` is `v2`, and a subsequent `reset(A)` removes only the
entry for `A`, leaving `value(B)` unchanged. -/
theorem two_scopes_independent (s : SysState) (h A B : Nat) (v1 v2 : Tensor)
    (hAB : A ≠ B)
    (hA0 : isActive A s = true) (hB0 : isActive B s = true)
    (hnA : ForwardGrad.contains h A s = false)
    (hnB : ForwardGrad.contains h B s = false) :
    ∃ s2 s3 s4,
      ForwardGrad.set_value h v1 A s = Except.ok s2 ∧
      ForwardGrad.set_value h v2 B s2 = Except.ok s3 ∧
      ForwardGrad.value h A s3 = v1 ∧
      ForwardGrad.value h B s3 = v2 ∧
      ForwardGrad.reset h A true s3 = Except.ok s4 ∧
      ForwardGrad.contains h A s4 = false ∧
      ForwardGrad.value h B s4 = v2 := by
  unfold isActive at hA0 hB0
  unfold ForwardGrad.contains at hnA hnB
  cases hA : lookupA A s.levels with
  | none => rw [hA] at hA0; cases hA0
  | some mA =>
  cases hB : lookupA B s.levels with
  | none => rw [hB] at hB0; cases hB0
  | some mB =>
  have hlA : lookupA A (s.holders h) = none := by
    cases hx : lookupA A (s.holders h) with
    | none => rfl
    | some w => rw [hx] at hnA; cases hnA
  have hlB : lookupA B (s.holders h) = none := by
    cases hx : lookupA B (s.holders h) with
    | none => rfl
    | some w => rw [hx] at hnB; cases hnB
  have hBA : B ≠ A := Ne.symm hAB
  have h1 := set_value_ok_of_active h v1 A s mA hA
  set s2 : SysState :=
    { levels := updateLevel A (insertMem h) s.levels,
      holders := updHolder h (insertNoReplace A v1 (s.holders h))
        s.holders } with hs2
  have hc2 : s2.holders h = (A, v1) :: s.holders h := by
    rw [hs2]
    show updHolder h (insertNoReplace A v1 (s.holders h)) s.holders h
      = (A, v1) :: s.holders h
    rw [show updHolder h (insertNoReplace A v1 (s.holders h)) s.holders h
        = insertNoReplace A v1 (s.holders h) from if_pos rfl]
    unfold insertNoReplace
    rw [hlA]
  have hB2 : lookupA B s2.levels = some mB := by
    rw [hs2]
    show lookupA B (updateLevel A (insertMem h) s.levels) = some mB
    rw [lookupA_updateLevel_ne A B _ s.levels hBA]
    exact hB
  have h2 := set_value_ok_of_active h v2 B s2 mB hB2
  set s3 : SysState :=
    { levels := updateLevel B (insertMem h) s2.levels,
      holders := updHolder h (insertNoReplace B v2 (s2.holders h))
        s2.holders } with hs3
  have hc3 : s3.holders h = (B, v2) :: (A, v1) :: s.holders h := by
    rw [hs3]
    show updHolder h (insertNoReplace B v2 (s2.holders h)) s2.holders h
      = (B, v2) :: (A, v1) :: s.holders h
    rw [show updHolder h (insertNoReplace B v2 (s2.holders h)) s2.holders h
        = insertNoReplace B v2 (s2.holders h) from if_pos rfl]
    rw [hc2]
    unfold insertNoReplace
    simp [lookupA, hAB, hlB]
  have hvA3 : ForwardGrad.value h A s3 = v1 := by
    unfold ForwardGrad.value
    rw [hc3]
    simp [lookupA, hBA]
  have hvB3 : ForwardGrad.value h B s3 = v2 := by
    unfold ForwardGrad.value
    rw [hc3]
    simp [lookupA]
  have hA3 : lookupA A s3.levels = some (insertMem h mA) := by
    rw [hs3]
    show lookupA A (updateLevel B (insertMem h) s2.levels)
      = some (insertMem h mA)
    rw [lookupA_updateLevel_ne B A _ s2.levels hAB, hs2]
    show lookupA A (updateLevel A (insertMem h) s.levels)
      = some (insertMem h mA)
    rw [lookupA_updateLevel_self, hA]
    rfl
  have h3 := reset_ok_of_active h A s3 (insertMem h mA) hA3
  set s4 : SysState :=
    { levels := updateLevel A (eraseMem h) s3.levels,
      holders := updHolder h (eraseKey A (s3.holders h)) s3.holders } with hs4
  have hc4 : s4.holders h = (B, v2) :: eraseKey A (s.holders h) := by
    rw [hs4]
    show updHolder h (eraseKey A (s3.holders h)) s3.holders h
      = (B, v2) :: eraseKey A (s.holders h)
    rw [show updHolder h (eraseKey A (s3.holders h)) s3.holders h
        = eraseKey A (s3.holders h) from if_pos rfl]
    rw [hc3]
    unfold eraseKey
    simp [List.filter_cons, hBA]
  have hcA4 : ForwardGrad.contains h A s4 = false := by
    unfold ForwardGrad.contains
    rw [hc4]
    simp [lookupA, hBA, lookupA_eraseKey_self]
  have hvB4 : ForwardGrad.value h B s4 = v2 := by
    unfold ForwardGrad.value
    rw [hc4]
    simp [lookupA]
  exact ⟨s2, s3, s4, h1, h2, hvA3, hvB3, h3, hcA4, hvB4⟩

/-- C8, amended, witness: in `sE` both levels 0 and 1 are active and holder 5
has no entries for either; the scenario holds with values `val 5` and
`val 7`. -/
theorem two_scopes_independent_witness :
    ∃ s2 s3 s4,
      ForwardGrad.set_value 5 (Tensor.val 5) 0 sE = Except.ok s2 ∧
      ForwardGrad.set_value 5 (Tensor.val 7) 1 s2 = Except.ok s3 ∧
      ForwardGrad.value 5 0 s3 = Tensor.val 5 ∧
      ForwardGrad.value 5 1 s3 = Tensor.val 7 ∧
      ForwardGrad.reset 5 0 true s3 = Except.ok s4 ∧
      ForwardGrad.contains 5 0 s4 = false ∧
      ForwardGrad.value 5 1 s4 = Tensor.val 7 :=
  two_scopes_independent sE 5 0 1 (Tensor.val 5) (Tensor.val 7)
    (by decide) rfl rfl rfl rfl
